import Mathlib

/-!
Shallow embedding of the epub-to-obsidian conversion pipeline
(epub_parser.py, markdown_converter.py, obsidian_writer.py) and proofs
about the claims of its specification.

HTML documents are modelled as trees of nodes (a parsed BeautifulSoup
document is a list of root nodes); Python strings are Lean Strings,
Python lists are Lean Lists.  Python `\s` / `str.strip()` whitespace is
approximated by the ASCII whitespace characters.
-/

namespace EpubObsidian

/-- A node of a parsed HTML document: a text node, or an element with a
tag name, attributes, and children. -/
inductive Node where
  | text : String → Node
  | elem : String → List (String × String) → List Node → Node
deriving Repr, Inhabited

/-- Tag name of an element node; text nodes have no tag (empty string). -/
def elemTag : Node → String
  | .text _ => ""
  | .elem t _ _ => t

/-- Python whitespace (ASCII approximation of `\s` and `str.strip()`). -/
def pyIsSpace (c : Char) : Bool :=
  c = ' ' || c = '\t' || c = '\n' || c = '\r' || c = '\x0b' || c = '\x0c'

/-- Python `str.strip()` on a char list. -/
def pyStripList (cs : List Char) : List Char :=
  ((cs.dropWhile pyIsSpace).reverse.dropWhile pyIsSpace).reverse

/-- Python `str.strip()`. -/
def pyStrip (s : String) : String := String.mk (pyStripList s.toList)

mutual
/-- The descendant text-node strings of a node, in document order. -/
def nodeStrings : Node → List String
  | .text s => [s]
  | .elem _ _ cs => nodesStrings cs

/-- The descendant text-node strings of a node list, in document order. -/
def nodesStrings : List Node → List String
  | [] => []
  | n :: ns => nodeStrings n ++ nodesStrings ns
end

/-- BeautifulSoup `element.get_text()`: concatenation of descendant
text-node strings. -/
def getTextNode (n : Node) : String := String.join (nodeStrings n)

/-- `get_text()` of a whole parsed document (list of root nodes). -/
def getTextDoc (doc : List Node) : String := String.join (nodesStrings doc)

/-- BeautifulSoup `element.get_text(strip=True)`: each text-node string
stripped, then concatenated. -/
def getTextStripNode (n : Node) : String :=
  String.join ((nodeStrings n).map pyStrip)

/-- `get_text(strip=True)` of a whole parsed document. -/
def getTextStripDoc (doc : List Node) : String :=
  String.join ((nodesStrings doc).map pyStrip)

/-- BeautifulSoup `soup.find(tag)`: first element with the given tag in
pre-order (document) order. -/
def findTagIn (t : String) : List Node → Option Node
  | [] => none
  | .text _ :: ns => findTagIn t ns
  | .elem tag a cs :: ns =>
    if tag = t then some (.elem tag a cs)
    else
      match findTagIn t cs with
      | some r => some r
      | none => findTagIn t ns

/-- All element nodes of a document in pre-order (document) order. -/
def preorderElems : List Node → List Node
  | [] => []
  | .text _ :: ns => preorderElems ns
  | .elem t a cs :: ns => .elem t a cs :: (preorderElems cs ++ preorderElems ns)

/-- `EPUBParser._clean_html`, first pass: decompose every `script`,
`style`, `meta` and `link` element. -/
def removeBadTags : List Node → List Node
  | [] => []
  | .text s :: ns => .text s :: removeBadTags ns
  | .elem t a cs :: ns =>
    if t = "script" || t = "style" || t = "meta" || t = "link" then
      removeBadTags ns
    else
      .elem t a (removeBadTags cs) :: removeBadTags ns

/-- `EPUBParser._clean_html`, second pass: decompose every `p` element
whose stripped text is empty. -/
def removeEmptyP : List Node → List Node
  | [] => []
  | .text s :: ns => .text s :: removeEmptyP ns
  | .elem t a cs :: ns =>
    if t = "p" && getTextStripNode (.elem t a cs) = "" then
      removeEmptyP ns
    else
      .elem t a (removeEmptyP cs) :: removeEmptyP ns

/-- `EPUBParser._clean_html`: remove script/style/meta/link elements,
then remove empty paragraphs. -/
def cleanHtml (doc : List Node) : List Node := removeEmptyP (removeBadTags doc)

/-- `soup.find(tag)` followed by the non-empty stripped-text check used
in `_extract_chapter_title`: the stripped text of the first element with
this tag, if that text is non-empty. -/
def tryTag (doc : List Node) (t : String) : Option String :=
  match findTagIn t doc with
  | none => none
  | some h => if getTextStripNode h = "" then none else some (getTextStripNode h)

/-- `pathlib.PurePath(name).name`: the final path component. -/
def pathName (s : String) : String :=
  (s.splitOn "/").getLastD s

/-- `pathlib.PurePath(name).stem`: final component with its extension
removed (a dot at position 0 or at the very end does not start an
extension). -/
def pathStem (s : String) : String :=
  let name := pathName s
  let cs := name.toList
  match (cs.reverse.findIdx? (· = '.')) with
  | none => name
  | some j =>
    let i := cs.length - 1 - j
    if 0 < i ∧ i < cs.length - 1 then String.mk (cs.take i) else name

/-- Python `str.isdigit()` (ASCII digits). -/
def pyIsDigitStr (s : String) : Bool :=
  s ≠ "" && s.toList.all Char.isDigit

/-- `re.sub(r'[_-]', ' ', s)`. -/
def subUnderscoreDash (s : String) : String :=
  String.mk (s.toList.map (fun c => if c = '_' || c = '-' then ' ' else c))

/-- `re.sub(r'\d+$', '', s)`: remove a trailing run of digits. -/
def removeTrailingDigits (s : String) : String :=
  String.mk ((s.toList.reverse.dropWhile Char.isDigit).reverse)

/-- Python `str.title()`: alphabetic characters are uppercased after a
non-alphabetic character (or at the start) and lowercased otherwise. -/
def pyTitleAux : Bool → List Char → List Char
  | _, [] => []
  | prevCased, c :: cs =>
    if c.isAlpha then
      (if prevCased then c.toLower else c.toUpper) :: pyTitleAux true cs
    else c :: pyTitleAux false cs

/-- Python `str.title()`. -/
def pyTitle (s : String) : String := String.mk (pyTitleAux false s.toList)

/-- The filename-based title rule of `_extract_chapter_title`: stem of
the item's file name, `_`/`-` replaced by spaces, trailing digits
removed, stripped, title-cased — only if the stem is non-empty and not
purely numeric and the cleaned string is non-empty. -/
def filenameTitle (fileName : String) : Option String :=
  let stem := pathStem fileName
  if stem ≠ "" && !pyIsDigitStr stem then
    let t := pyStrip (removeTrailingDigits (subUnderscoreDash stem))
    if t ≠ "" then some (pyTitle t) else none
  else none

/-- `EPUBParser._extract_chapter_title`: first non-empty `h1`, else
first non-empty `h2`, else first non-empty `h3`, else the `title`
element, else the cleaned file name, else a generic chapter name. -/
def extractChapterTitle (doc : List Node) (fileName : String) (chapterNum : Nat) :
    String :=
  match tryTag doc "h1" with
  | some t => t
  | none =>
  match tryTag doc "h2" with
  | some t => t
  | none =>
  match tryTag doc "h3" with
  | some t => t
  | none =>
  match tryTag doc "title" with
  | some t => t
  | none =>
  match filenameTitle fileName with
  | some t => t
  | none => "Chapter " ++ toString (chapterNum + 1)

/-- The book-metadata dictionary as read off a chapter record by
`ObsidianWriter._fix_navigation` (an optional `title` key). -/
structure NavMeta where
  title : Option String
deriving Repr, DecidableEq, Inhabited

/-- A spine document item: its manifest id, archive file name, parsed
HTML document, and whether processing it raises (models a decode or
parse exception inside `_process_chapter`). -/
structure Item where
  id : String
  name : String
  doc : List Node
  fails : Bool
deriving Repr, Inhabited

/-- The chapter record built by `EPUBParser._process_chapter`.  The
`book_metadata` field models the dictionary key of the same name that
`_fix_navigation` reads; `_process_chapter` never sets it. -/
structure Chapter where
  number : Nat
  title : String
  content_html : List Node
  content : String
  item_id : String
  file_name : String
  book_metadata : Option NavMeta := none
deriving Repr, Inhabited

/-- The chapter record `_process_chapter` builds for an item whose
processing does not raise, given the current kept-chapter count. -/
def chapterOf (item : Item) (chapterNum : Nat) : Chapter :=
  let cleaned := cleanHtml item.doc
  { number := chapterNum + 1
    title := extractChapterTitle item.doc item.name chapterNum
    content_html :=
      match findTagIn "body" cleaned with
      | some b => [b]
      | none => cleaned
    content := getTextStripDoc cleaned
    item_id := item.id
    file_name := item.name
    book_metadata := none }

/-- `EPUBParser._process_chapter`: returns `none` when processing the
item raises (the exception is caught and logged). -/
def processChapter (item : Item) (chapterNum : Nat) : Option Chapter :=
  if item.fails then none else some (chapterOf item chapterNum)

/-- Loop body of `EPUBParser.get_chapters`: spine entries whose id is
not a document item are skipped (`none` entries); a processed chapter is
kept, and the counter advanced, only when processing succeeded and the
stripped plain text is non-empty. -/
def getChaptersAux : List (Option Item) → Nat → List Chapter
  | [], _ => []
  | none :: rest, n => getChaptersAux rest n
  | some item :: rest, n =>
    match processChapter item n with
    | none => getChaptersAux rest n
    | some c =>
      if pyStrip c.content ≠ "" then c :: getChaptersAux rest (n + 1)
      else getChaptersAux rest n

/-- `EPUBParser.get_chapters`: process the spine in reading order. -/
def getChapters (spine : List (Option Item)) : List Chapter :=
  getChaptersAux spine 0

/-- An item is kept by `get_chapters` iff its processing succeeds and
its cleaned document has non-empty stripped plain text. -/
def keepItem (item : Item) : Bool :=
  !item.fails && pyStrip (getTextStripDoc (cleanHtml item.doc)) ≠ ""

/-- The document items of the spine that `get_chapters` keeps, in
reading order. -/
def keptItems (spine : List (Option Item)) : List Item :=
  (spine.filterMap id).filter keepItem

/-- The chapter list built from a list of kept items, numbering from a
given starting count. -/
def chaptersSpec : List Item → Nat → List Chapter
  | [], _ => []
  | it :: rest, n => chapterOf it n :: chaptersSpec rest (n + 1)

theorem chapterOf_content (it : Item) (n : Nat) :
    (chapterOf it n).content = getTextStripDoc (cleanHtml it.doc) := rfl

theorem chapterOf_number (it : Item) (n : Nat) :
    (chapterOf it n).number = n + 1 := rfl

theorem getChaptersAux_cons_none (rest : List (Option Item)) (n : Nat) :
    getChaptersAux (none :: rest) n = getChaptersAux rest n := rfl

theorem getChaptersAux_cons_fail (item : Item) (rest : List (Option Item))
    (n : Nat) (h : item.fails = true) :
    getChaptersAux (some item :: rest) n = getChaptersAux rest n := by
  simp [getChaptersAux, processChapter, h]

theorem getChaptersAux_cons_keep (item : Item) (rest : List (Option Item))
    (n : Nat) (h : item.fails = false)
    (hc : pyStrip (getTextStripDoc (cleanHtml item.doc)) ≠ "") :
    getChaptersAux (some item :: rest) n =
      chapterOf item n :: getChaptersAux rest (n + 1) := by
  simp [getChaptersAux, processChapter, h, chapterOf_content, hc]

theorem getChaptersAux_cons_empty (item : Item) (rest : List (Option Item))
    (n : Nat) (h : item.fails = false)
    (hc : pyStrip (getTextStripDoc (cleanHtml item.doc)) = "") :
    getChaptersAux (some item :: rest) n = getChaptersAux rest n := by
  simp [getChaptersAux, processChapter, h, chapterOf_content, hc]

theorem keptItems_cons_none (rest : List (Option Item)) :
    keptItems (none :: rest) = keptItems rest := by
  simp [keptItems]

theorem keptItems_cons_some (item : Item) (rest : List (Option Item)) :
    keptItems (some item :: rest) =
      if keepItem item then item :: keptItems rest else keptItems rest := by
  simp [keptItems, List.filter_cons]

theorem keepItem_true_iff (item : Item) :
    keepItem item = true ↔
      item.fails = false ∧ pyStrip (getTextStripDoc (cleanHtml item.doc)) ≠ "" := by
  simp [keepItem]

/-- `get_chapters` produces exactly the chapters of the kept items, in
order, numbered consecutively from the starting count. -/
theorem getChaptersAux_eq_chaptersSpec (spine : List (Option Item)) :
    ∀ n, getChaptersAux spine n = chaptersSpec (keptItems spine) n := by
  induction spine with
  | nil => intro n; rfl
  | cons entry rest ih =>
    intro n
    cases entry with
    | none =>
      rw [getChaptersAux_cons_none, keptItems_cons_none]
      exact ih n
    | some item =>
      by_cases hf : item.fails = true
      · have hk : keepItem item = false := by
          simp [keepItem, hf]
        rw [getChaptersAux_cons_fail item rest n hf, keptItems_cons_some, hk]
        simp only [Bool.false_eq_true, if_false]
        exact ih n
      · have hf' : item.fails = false := by
          simpa using hf
        by_cases hc : pyStrip (getTextStripDoc (cleanHtml item.doc)) = ""
        · have hk : keepItem item = false := by
            simp [keepItem, hc]
          rw [getChaptersAux_cons_empty item rest n hf' hc, keptItems_cons_some, hk]
          simp only [Bool.false_eq_true, if_false]
          exact ih n
        · have hk : keepItem item = true := (keepItem_true_iff item).mpr ⟨hf', hc⟩
          rw [getChaptersAux_cons_keep item rest n hf' hc, keptItems_cons_some, hk]
          simp only [if_true, chaptersSpec]
          rw [ih (n + 1)]

theorem getChapters_eq_chaptersSpec (spine : List (Option Item)) :
    getChapters spine = chaptersSpec (keptItems spine) 0 :=
  getChaptersAux_eq_chaptersSpec spine 0

theorem chaptersSpec_length (items : List Item) :
    ∀ n, (chaptersSpec items n).length = items.length := by
  induction items with
  | nil => intro n; rfl
  | cons it rest ih => intro n; simp [chaptersSpec, ih]

theorem chaptersSpec_numbers (items : List Item) :
    ∀ n, (chaptersSpec items n).map Chapter.number =
      List.range' (n + 1) items.length := by
  induction items with
  | nil => intro n; rfl
  | cons it rest ih =>
    intro n
    simp [chaptersSpec, List.range', chapterOf_number, ih (n + 1)]

theorem chaptersSpec_content_ne (items : List Item)
    (h : ∀ it ∈ items, keepItem it = true) :
    ∀ n, ∀ c ∈ chaptersSpec items n, pyStrip c.content ≠ "" := by
  induction items with
  | nil => intro n c hc; simp [chaptersSpec] at hc
  | cons it rest ih =>
    intro n c hc
    simp only [chaptersSpec, List.mem_cons] at hc
    rcases hc with rfl | hc
    · rw [chapterOf_content]
      exact ((keepItem_true_iff it).mp (h it (by simp))).2
    · exact ih (fun x hx => h x (by simp [hx])) (n + 1) c hc

theorem keptItems_all_keep (spine : List (Option Item)) :
    ∀ it ∈ keptItems spine, keepItem it = true := by
  intro it hit
  exact List.of_mem_filter hit

end EpubObsidian

namespace EpubObsidian

/-- C1: for every spine, `get_chapters` returns exactly one chapter per
kept document item (processing succeeded and stripped text non-empty),
in spine order, with `number` fields exactly 1, 2, ..., K; dropped
documents appear nowhere in the output and consume no ordinal (the
output is exactly the enumeration of the kept items). -/
theorem C1_get_chapters_ordinals (spine : List (Option Item)) :
    (getChapters spine).length = (keptItems spine).length ∧
    (getChapters spine).map Chapter.number =
      List.range' 1 (keptItems spine).length ∧
    (∀ c ∈ getChapters spine, pyStrip c.content ≠ "") ∧
    getChapters spine = chaptersSpec (keptItems spine) 0 := by
  have he := getChapters_eq_chaptersSpec spine
  refine ⟨?_, ?_, ?_, he⟩
  · rw [he, chaptersSpec_length]
  · rw [he]
    simpa using chaptersSpec_numbers (keptItems spine) 0
  · intro c hc
    rw [he] at hc
    exact chaptersSpec_content_ne (keptItems spine)
      (keptItems_all_keep spine) 0 c hc

/-- An example spine for the C1 witness: one kept document, one empty
document, one failing document, one kept document, one non-document
spine entry. -/
def exSpineC1 : List (Option Item) :=
  [some ⟨"a", "a.html", [.elem "p" [] [.text "Alpha"]], false⟩,
   some ⟨"b", "b.html", [.elem "p" [] [.text "   "]], false⟩,
   some ⟨"c", "c.html", [.elem "p" [] [.text "Gamma"]], true⟩,
   some ⟨"d", "d.html", [.elem "h1" [] [.text "Delta"]], false⟩,
   none]

theorem C1_get_chapters_ordinals_witness :
    (getChapters exSpineC1).length = (keptItems exSpineC1).length ∧
    (getChapters exSpineC1).map Chapter.number =
      List.range' 1 (keptItems exSpineC1).length ∧
    (∀ c ∈ getChapters exSpineC1, pyStrip c.content ≠ "") ∧
    getChapters exSpineC1 = chaptersSpec (keptItems exSpineC1) 0 :=
  C1_get_chapters_ordinals exSpineC1

/-- C5: a spine document whose processing raises is dropped without
aborting the archive read: the chapter list is the same as if the item
were absent, so it consumes no ordinal and every remaining spine
document is still processed. -/
theorem C5_failing_item_dropped (pre post : List (Option Item)) (bad : Item)
    (h : bad.fails = true) :
    getChapters (pre ++ some bad :: post) = getChapters (pre ++ post) := by
  unfold getChapters
  have key : ∀ (l : List (Option Item)) (n : Nat),
      getChaptersAux (l ++ some bad :: post) n = getChaptersAux (l ++ post) n := by
    intro l
    induction l with
    | nil =>
      intro n
      simpa using getChaptersAux_cons_fail bad post n h
    | cons e rest ih =>
      intro n
      cases e with
      | none =>
        rw [List.cons_append, List.cons_append, getChaptersAux_cons_none,
          getChaptersAux_cons_none]
        exact ih n
      | some it =>
        rw [List.cons_append, List.cons_append]
        by_cases hf : it.fails = true
        · rw [getChaptersAux_cons_fail it _ n hf, getChaptersAux_cons_fail it _ n hf]
          exact ih n
        · have hf' : it.fails = false := by simpa using hf
          by_cases hc : pyStrip (getTextStripDoc (cleanHtml it.doc)) = ""
          · rw [getChaptersAux_cons_empty it _ n hf' hc,
              getChaptersAux_cons_empty it _ n hf' hc]
            exact ih n
          · rw [getChaptersAux_cons_keep it _ n hf' hc,
              getChaptersAux_cons_keep it _ n hf' hc]
            rw [ih (n + 1)]
  exact key pre 0

/-- A failing item for the C5 witness. -/
def exBadItem : Item := ⟨"bad", "bad.html", [.elem "p" [] [.text "Boom"]], true⟩

/-- A healthy item for the C5 witness. -/
def exGoodItem : Item := ⟨"good", "good.html", [.elem "p" [] [.text "Fine"]], false⟩

theorem C5_failing_item_dropped_witness :
    getChapters ([some exGoodItem] ++ some exBadItem :: [some exGoodItem]) =
      getChapters ([some exGoodItem] ++ [some exGoodItem]) :=
  C5_failing_item_dropped [some exGoodItem] [some exGoodItem] exBadItem rfl

theorem head_filter_append {α} (p : α → Bool) (l l' : List α) :
    ((l ++ l').filter p).head? =
      ((l.filter p).head?).or ((l'.filter p).head?) := by
  rw [List.filter_append]
  cases l.filter p <;> simp

theorem elemTag_elem (t : String) (a : List (String × String)) (cs : List Node) :
    elemTag (Node.elem t a cs) = t := rfl

/-- `soup.find(tag)` is the first element with that tag in document
(pre-order) order. -/
theorem findTagIn_eq_preorder (t : String) (ns : List Node) :
    findTagIn t ns = ((preorderElems ns).filter (fun e => elemTag e = t)).head? := by
  induction ns using findTagIn.induct t with
  | case1 => simp [findTagIn, preorderElems]
  | case2 s ns ih =>
    rw [findTagIn, ih]
    simp [preorderElems]
  | case3 a cs ns =>
    rw [findTagIn]
    simp [preorderElems, List.filter_cons, elemTag_elem]
  | case4 tag a cs ns hne r hr ihcs =>
    rw [findTagIn, if_neg hne, hr]
    rw [hr] at ihcs
    simp [preorderElems, List.filter_cons, elemTag_elem, hne,
      head_filter_append, ← ihcs]
  | case5 tag a cs ns hne hr ihcs ihns =>
    rw [findTagIn, if_neg hne, hr]
    rw [hr] at ihcs
    simp [preorderElems, List.filter_cons, elemTag_elem, hne,
      head_filter_append, ← ihcs, ← ihns]

/-- Text of the first heading of levels 1-3 in document order whose
stripped text is non-empty — rule (i) exactly as the claim words it. -/
def claimDocOrderHeading (doc : List Node) : Option String :=
  ((preorderElems doc).filterMap (fun e =>
      if (elemTag e = "h1" || elemTag e = "h2" || elemTag e = "h3")
          && getTextStripNode e ≠ "" then
        some (getTextStripNode e)
      else none)).head?

/-- The title-extraction cascade exactly as claim C2 words it: rule (i)
is the first non-empty heading of level 1, 2 or 3 in document order. -/
def titleRuleClaim (doc : List Node) (fileName : String) (chapterNum : Nat) :
    String :=
  match claimDocOrderHeading doc with
  | some t => t
  | none =>
  match tryTag doc "title" with
  | some t => t
  | none =>
  match filenameTitle fileName with
  | some t => t
  | none => "Chapter " ++ toString (chapterNum + 1)

/-- Rule (i) as the code implements it: for levels 1, 2, 3 in that
priority order, the stripped text of the first element of that level in
document order, provided it is non-empty. -/
def amendedHeading (doc : List Node) : Option String :=
  (["h1", "h2", "h3"].filterMap (fun tag =>
      match ((preorderElems doc).filter (fun e => elemTag e = tag)).head? with
      | none => none
      | some h =>
        if getTextStripNode h = "" then none else some (getTextStripNode h))).head?

/-- The amended title-extraction cascade: level priority first, document
order within a level, and a level whose first element has empty text is
skipped entirely. -/
def titleRuleAmended (doc : List Node) (fileName : String) (chapterNum : Nat) :
    String :=
  match amendedHeading doc with
  | some t => t
  | none =>
  match ((preorderElems doc).filter (fun e => elemTag e = "title")).head? with
  | some h =>
    if getTextStripNode h = "" then
      match filenameTitle fileName with
      | some t => t
      | none => "Chapter " ++ toString (chapterNum + 1)
    else getTextStripNode h
  | none =>
  match filenameTitle fileName with
  | some t => t
  | none => "Chapter " ++ toString (chapterNum + 1)

/-- A document whose first heading in document order is an `h2`,
followed by an `h1`. -/
def exDocC2 : List Node :=
  [.elem "h2" [] [.text "Intro"], .elem "h1" [] [.text "Main"]]

/-- C2 counterexample: the code checks `h1` before `h2` regardless of
document order, so on a document whose `h2` "Intro" precedes its `h1`
"Main" it returns "Main", while the claim's document-order rule demands
"Intro". -/
theorem findTagIn_h1_exDocC2 :
    findTagIn "h1" exDocC2 = some (.elem "h1" [] [.text "Main"]) := by
  show findTagIn "h1"
    [.elem "h2" [] [.text "Intro"], .elem "h1" [] [.text "Main"]] = _
  rw [findTagIn, if_neg (by decide),
    show findTagIn "h1" [Node.text "Intro"] = none from by rw [findTagIn, findTagIn]]
  show findTagIn "h1" [.elem "h1" [] [.text "Main"]] = _
  rw [findTagIn, if_pos rfl]

theorem getTextStrip_exDocC2_main :
    getTextStripNode (.elem "h1" [] [.text "Main"]) = "Main" := by
  rw [getTextStripNode, nodeStrings, nodesStrings, nodeStrings, nodesStrings]
  decide

theorem tryTag_h1_exDocC2 : tryTag exDocC2 "h1" = some "Main" := by
  rw [tryTag, findTagIn_h1_exDocC2]
  show (if getTextStripNode (.elem "h1" [] [.text "Main"]) = "" then none
    else some (getTextStripNode (.elem "h1" [] [.text "Main"]))) = some "Main"
  rw [getTextStrip_exDocC2_main, if_neg (by decide)]

theorem C2_counterexample :
    extractChapterTitle exDocC2 "c.xhtml" 0 = "Main" ∧
    titleRuleClaim exDocC2 "c.xhtml" 0 = "Intro" ∧
    extractChapterTitle exDocC2 "c.xhtml" 0 ≠ titleRuleClaim exDocC2 "c.xhtml" 0 := by
  have h1 : extractChapterTitle exDocC2 "c.xhtml" 0 = "Main" := by
    rw [extractChapterTitle, tryTag_h1_exDocC2]
  have h2 : titleRuleClaim exDocC2 "c.xhtml" 0 = "Intro" := by
    simp +decide [titleRuleClaim, claimDocOrderHeading, exDocC2, preorderElems,
      getTextStripNode, nodeStrings, nodesStrings, elemTag]
  refine ⟨h1, h2, ?_⟩
  rw [h1, h2]
  decide

theorem tryTag_eq_preorder (doc : List Node) (t : String) :
    tryTag doc t =
      match ((preorderElems doc).filter (fun e => elemTag e = t)).head? with
      | none => none
      | some h =>
        if getTextStripNode h = "" then none else some (getTextStripNode h) := by
  rw [tryTag, findTagIn_eq_preorder]

theorem filterMap_three_head {α β} (f : α → Option β) (a b c : α) :
    (List.filterMap f [a, b, c]).head? = ((f a).or ((f b).or (f c))) := by
  cases ha : f a <;> cases hb : f b <;> cases hc : f c <;>
    simp [List.filterMap_cons, ha, hb, hc, Option.or]

theorem amendedHeading_eq_tryTags (doc : List Node) :
    amendedHeading doc =
      (tryTag doc "h1").or ((tryTag doc "h2").or (tryTag doc "h3")) := by
  rw [amendedHeading, filterMap_three_head, tryTag_eq_preorder doc "h1",
    tryTag_eq_preorder doc "h2", tryTag_eq_preorder doc "h3"]

/-- C2 amended: the extracted chapter title follows the cascade with
rule (i) read as level-priority order — the first `h1` in document order
if its trimmed text is non-empty, else the first `h2`, else the first
`h3` (a level whose first element has empty text is skipped entirely) —
then the document's first `title` element with non-empty trimmed text,
then the cleaned file name, then the generic fallback. -/
theorem C2_title_rule_amended (doc : List Node) (fileName : String)
    (chapterNum : Nat) :
    extractChapterTitle doc fileName chapterNum =
      titleRuleAmended doc fileName chapterNum := by
  rw [extractChapterTitle, titleRuleAmended, amendedHeading_eq_tryTags]
  cases g1 : tryTag doc "h1" with
  | some t => simp [Option.or]
  | none =>
    cases g2 : tryTag doc "h2" with
    | some t => simp [Option.or]
    | none =>
      cases g3 : tryTag doc "h3" with
      | some t => simp [Option.or]
      | none =>
        simp only [Option.or]
        rw [tryTag_eq_preorder doc "title"]
        cases gt : ((preorderElems doc).filter (fun e => elemTag e = "title")).head? with
        | none => rfl
        | some h =>
          by_cases he : getTextStripNode h = "" <;> simp [he]

/-- Heading level of a tag name, for tags `h1` through `h6`. -/
def headingLevel (t : String) : Option Nat :=
  if t = "h1" then some 1
  else if t = "h2" then some 2
  else if t = "h3" then some 3
  else if t = "h4" then some 4
  else if t = "h5" then some 5
  else if t = "h6" then some 6
  else none

/-- Python `'#' * n`. -/
def hashes : Nat → String
  | 0 => ""
  | n + 1 => "#" ++ hashes n

mutual
/-- `convert_element` inside `MarkdownConverter._basic_html_to_markdown`:
per-tag translation, recursing into children only for the container tags
`div`, `section`, `article`, `span` and `body`. -/
def convertElement : Node → String
  | .text s => s
  | .elem tag attrs cs =>
    let text := String.join (nodesStrings cs)
    match headingLevel tag with
    | some lvl => "\n" ++ hashes lvl ++ " " ++ text ++ "\n"
    | none =>
      if tag = "p" then "\n" ++ text ++ "\n"
      else if tag = "strong" || tag = "b" then "**" ++ text ++ "**"
      else if tag = "em" || tag = "i" then "*" ++ text ++ "*"
      else if tag = "code" then "`" ++ text ++ "`"
      else if tag = "pre" then "\n```\n" ++ text ++ "\n```\n"
      else if tag = "a" then
        let href := (attrs.lookup "href").getD ""
        if href ≠ "" then "[" ++ text ++ "](" ++ href ++ ")" else text
      else if tag = "ul" then
        "\n" ++ String.intercalate "\n"
          ((cs.filter (fun n => elemTag n = "li")).map
            (fun li => "- " ++ getTextNode li)) ++ "\n"
      else if tag = "ol" then
        "\n" ++ String.intercalate "\n"
          ((cs.filter (fun n => elemTag n = "li")).enum.map
            (fun p => toString (p.1 + 1) ++ ". " ++ getTextNode p.2)) ++ "\n"
      else if tag = "blockquote" then
        "\n" ++ String.intercalate "\n"
          (((text.splitOn "\n").filter (fun l => pyStrip l ≠ "")).map
            (fun l => "> " ++ l)) ++ "\n"
      else if tag = "br" then "\n"
      else if tag = "hr" then "\n---\n"
      else if tag = "div" || tag = "section" || tag = "article" || tag = "span" then
        convertChildren cs
      else if tag = "body" then convertChildren cs
      else text

/-- Concatenation of the converted children of a container element. -/
def convertChildren : List Node → String
  | [] => ""
  | n :: ns => convertElement n ++ convertChildren ns
end

/-- `re.sub(r'\n\x7b3,\x7d', '\n\n', s)`: at most two consecutive
newlines survive. -/
def collapseNlAux : Nat → List Char → List Char
  | _, [] => []
  | run, c :: cs =>
    if c = '\n' then
      if run < 2 then c :: collapseNlAux (run + 1) cs else collapseNlAux run cs
    else c :: collapseNlAux 0 cs

/-- `re.sub(r' +', ' ', s)`: runs of spaces collapse to one space. -/
def collapseSpAux : Bool → List Char → List Char
  | _, [] => []
  | prevSp, c :: cs =>
    if c = ' ' then
      if prevSp then collapseSpAux true cs else c :: collapseSpAux true cs
    else c :: collapseSpAux false cs

/-- `MarkdownConverter._basic_html_to_markdown`: convert from the `body`
element if one exists, else from the document root (whose tag name is
not a container, so it falls to the plain-text branch); then collapse
three-plus newlines, collapse space runs, and strip. -/
def basicHtmlToMarkdown (doc : List Node) : String :=
  let markdown :=
    match findTagIn "body" doc with
    | some b => convertElement b
    | none => getTextDoc doc
  pyStrip (String.mk (collapseSpAux false (collapseNlAux 0 markdown.toList)))

/-- The parse tree of the HTML fragment
`<p>Hello <strong>world</strong></p>`. -/
def exDocC3 : List Node :=
  [.elem "p" [] [.text "Hello ", .elem "strong" [] [.text "world"]]]

/-- C3 counterexample: the fallback converter renders a `p` element with
`element.get_text()`, which flattens the nested `strong` markup, so
`<p>Hello <strong>world</strong></p>` converts to "Hello world" and not
to the claimed "Hello **world**". -/
theorem basicHtmlToMarkdown_exDocC3 :
    basicHtmlToMarkdown exDocC3 = "Hello world" := by
  have hf : findTagIn "body" exDocC3 = none := by
    simp [findTagIn, exDocC3]
  have hg : getTextDoc exDocC3 = "Hello world" := by
    simp [getTextDoc, exDocC3, nodesStrings, nodeStrings]
    decide
  simp only [basicHtmlToMarkdown, hf, hg]
  decide

theorem C3_counterexample :
    basicHtmlToMarkdown exDocC3 = "Hello world" ∧
    basicHtmlToMarkdown exDocC3 ≠ "Hello **world**" := by
  refine ⟨basicHtmlToMarkdown_exDocC3, ?_⟩
  rw [basicHtmlToMarkdown_exDocC3]
  decide

/-- C3 amended: the fallback converter recurses structurally only
through the container tags; a `strong` child of a container renders as
inline bold, but inside a `p` only the plain text survives, so the
claimed input converts to "Hello world", and converting that output
again (it parses as a bare text node) returns it unchanged. -/
theorem C3_basic_conversion_amended :
    basicHtmlToMarkdown exDocC3 = "Hello world" ∧
    basicHtmlToMarkdown [.text "Hello world"] = "Hello world" ∧
    basicHtmlToMarkdown
      [.elem "body" [] [.text "Hello ", .elem "strong" [] [.text "world"]]] =
      "Hello **world**" := by
  refine ⟨basicHtmlToMarkdown_exDocC3, ?_, ?_⟩
  · have hf : findTagIn "body" [Node.text "Hello world"] = none := by
      simp [findTagIn]
    have hg : getTextDoc [Node.text "Hello world"] = "Hello world" := by
      simp [getTextDoc, nodesStrings, nodeStrings]
      decide
    simp only [basicHtmlToMarkdown, hf, hg]
    decide
  · have hf : findTagIn "body"
        [Node.elem "body" [] [.text "Hello ", .elem "strong" [] [.text "world"]]] =
        some (.elem "body" [] [.text "Hello ", .elem "strong" [] [.text "world"]]) := by
      simp [findTagIn]
    have hc : convertElement
        (.elem "body" [] [.text "Hello ", .elem "strong" [] [.text "world"]]) =
        "Hello **world**" := by
      simp [convertElement, convertChildren, headingLevel, nodesStrings,
        nodeStrings]
      decide
    simp only [basicHtmlToMarkdown, hf, hc]
    decide

/-- `MarkdownConverter._html_to_markdown`, with the external MarkItDown
converter abstracted as a function that either raises (`Except.error`)
or returns an optional text (`result.text_content`, `None` mapped to the
empty string by `or ""`): any failure or blank result falls back to the
structural converter. -/
def htmlToMarkdown (primary : List Node → Except Unit (Option String))
    (doc : List Node) : String :=
  match primary doc with
  | .error _ => basicHtmlToMarkdown doc
  | .ok t =>
    let s := t.getD ""
    if pyStrip s = "" then basicHtmlToMarkdown doc else s

/-- C4: whenever the primary converter raises, or returns text that is
empty after stripping (including a missing `text_content`), the
conversion returns the structural fallback's output instead of
propagating the failure — `_html_to_markdown` is total. -/
theorem C4_conversion_fallback
    (primary : List Node → Except Unit (Option String)) (doc : List Node)
    (h : primary doc = .error () ∨
      ∃ t, primary doc = .ok t ∧ pyStrip (t.getD "") = "") :
    htmlToMarkdown primary doc = basicHtmlToMarkdown doc := by
  rcases h with h | ⟨t, ht, hs⟩
  · rw [htmlToMarkdown, h]
  · rw [htmlToMarkdown, ht]
    simp [hs]

/-- A small document for the C4 witness. -/
def exDocC4 : List Node := [.elem "p" [] [.text "Text"]]

theorem C4_conversion_fallback_witness :
    htmlToMarkdown (fun _ => .error ()) exDocC4 = basicHtmlToMarkdown exDocC4 :=
  C4_conversion_fallback (fun _ => .error ()) exDocC4 (Or.inl rfl)

/-- The characters removed by `ObsidianWriter._sanitize_filename`. -/
def invalidFileChar (c : Char) : Bool :=
  c = '<' || c = '>' || c = ':' || c = '\"' || c = '/' || c = '\\' ||
    c = '|' || c = '?' || c = '*'

/-- The characters stripped from the ends by `filename.strip('. ')`. -/
def isDotSpace (c : Char) : Bool := c = '.' || c = ' '

/-- `re.sub(r'\s+', ' ', s)`: each maximal whitespace run becomes one
space (the flag records whether the previous character was whitespace). -/
def collapseWsAux : Bool → List Char → List Char
  | _, [] => []
  | prevWs, c :: cs =>
    if pyIsSpace c then
      if prevWs then collapseWsAux true cs else ' ' :: collapseWsAux true cs
    else c :: collapseWsAux false cs

/-- Python `s.strip('. ')` on a char list. -/
def stripDotSpaceList (cs : List Char) : List Char :=
  ((cs.dropWhile isDotSpace).reverse.dropWhile isDotSpace).reverse

/-- `ObsidianWriter._sanitize_filename` on a char list: remove the
reserved characters, collapse whitespace runs to single spaces, strip
leading/trailing dots and spaces, and cap the length at 200. -/
def sanitizeFilenameList (cs : List Char) : List Char :=
  let s1 := cs.filter (fun c => !invalidFileChar c)
  let s2 := collapseWsAux false s1
  let s3 := stripDotSpaceList s2
  if s3.length > 200 then s3.take 200 else s3

/-- `ObsidianWriter._sanitize_filename`. -/
def sanitizeFilename (s : String) : String :=
  String.mk (sanitizeFilenameList s.toList)

theorem toList_mk (l : List Char) : (String.mk l).toList = l := rfl

/-- Whether a char list does not end in a dot or space. -/
def noTrailDotSpace (cs : List Char) : Bool :=
  cs.getLast?.all (fun c => !isDotSpace c)

theorem noTrailDotSpace_spec (cs : List Char) :
    noTrailDotSpace cs = true ↔
      ∀ c, cs.getLast? = some c → isDotSpace c = false := by
  rw [noTrailDotSpace]
  cases cs.getLast? <;> simp

theorem collapseWs_mem (cs : List Char) :
    ∀ (b : Bool), ∀ c ∈ collapseWsAux b cs, c = ' ' ∨ c ∈ cs := by
  induction cs with
  | nil => intro b c hc; simp [collapseWsAux] at hc
  | cons a cs ih =>
    intro b c hc
    rw [collapseWsAux] at hc
    by_cases ha : pyIsSpace a = true
    · rw [if_pos ha] at hc
      cases b with
      | true =>
        rw [if_pos rfl] at hc
        rcases ih true c hc with h | h
        · exact Or.inl h
        · exact Or.inr (List.mem_cons_of_mem a h)
      | false =>
        rw [if_neg (by simp)] at hc
        rcases List.mem_cons.mp hc with h | h
        · exact Or.inl h
        · rcases ih true c h with h' | h'
          · exact Or.inl h'
          · exact Or.inr (List.mem_cons_of_mem a h')
    · rw [if_neg ha] at hc
      rcases List.mem_cons.mp hc with h | h
      · exact Or.inr (h ▸ List.mem_cons_self a cs)
      · rcases ih false c h with h' | h'
        · exact Or.inl h'
        · exact Or.inr (List.mem_cons_of_mem a h')

theorem collapseWs_ws_eq_space (cs : List Char) :
    ∀ (b : Bool), ∀ c ∈ collapseWsAux b cs, pyIsSpace c = true → c = ' ' := by
  induction cs with
  | nil => intro b c hc; simp [collapseWsAux] at hc
  | cons a cs ih =>
    intro b c hc hws
    rw [collapseWsAux] at hc
    by_cases ha : pyIsSpace a = true
    · rw [if_pos ha] at hc
      cases b with
      | true =>
        rw [if_pos rfl] at hc
        exact ih true c hc hws
      | false =>
        rw [if_neg (by simp)] at hc
        rcases List.mem_cons.mp hc with h | h
        · exact h
        · exact ih true c h hws
    · rw [if_neg ha] at hc
      rcases List.mem_cons.mp hc with h | h
      · rw [h] at hws; exact absurd hws ha
      · exact ih false c h hws

theorem collapseWs_true_head (cs : List Char) :
    ∀ c, (collapseWsAux true cs).head? = some c → pyIsSpace c = false := by
  induction cs with
  | nil => intro c hc; simp [collapseWsAux] at hc
  | cons a cs ih =>
    intro c hc
    rw [collapseWsAux] at hc
    by_cases ha : pyIsSpace a = true
    · rw [if_pos ha, if_pos rfl] at hc
      exact ih c hc
    · rw [if_neg ha] at hc
      simp only [List.head?_cons, Option.some.injEq] at hc
      rw [← hc]
      simpa using ha

theorem collapseWs_chain (cs : List Char) :
    ∀ (b : Bool),
      List.Chain' (fun x y => ¬(x = ' ' ∧ y = ' ')) (collapseWsAux b cs) := by
  induction cs with
  | nil => intro b; simp [collapseWsAux]
  | cons a cs ih =>
    intro b
    rw [collapseWsAux]
    by_cases ha : pyIsSpace a = true
    · rw [if_pos ha]
      cases b with
      | true => rw [if_pos rfl]; exact ih true
      | false =>
        rw [if_neg (by simp)]
        rw [List.chain'_cons']
        refine ⟨?_, ih true⟩
        intro y hy hcon
        have hyh : (collapseWsAux true cs).head? = some y := by
          cases hh : (collapseWsAux true cs).head? with
          | none => rw [hh] at hy; simp at hy
          | some z => rw [hh] at hy; simp at hy; simp [hy]
        have := collapseWs_true_head cs y hyh
        rw [hcon.2] at this
        simp [pyIsSpace] at this
    · rw [if_neg ha]
      rw [List.chain'_cons']
      refine ⟨?_, ih false⟩
      intro y _ hcon
      rw [hcon.1] at ha
      exact ha (by simp [pyIsSpace])

theorem head_dropWhile_not {α} (p : α → Bool) (l : List α) :
    ∀ c, (l.dropWhile p).head? = some c → p c = false := by
  induction l with
  | nil => intro c hc; simp [List.dropWhile] at hc
  | cons a l ih =>
    intro c hc
    rw [List.dropWhile_cons] at hc
    by_cases ha : p a = true
    · rw [if_pos ha] at hc
      exact ih c hc
    · rw [if_neg ha] at hc
      simp only [List.head?_cons, Option.some.injEq] at hc
      rw [← hc]
      simpa using ha

theorem rev_dropWhile_rev_front {α} (p : α → Bool) (l : List α) :
    ((l.reverse.dropWhile p).reverse) <+: l := by
  obtain ⟨t, ht⟩ := List.dropWhile_suffix (l := l.reverse) p
  exact ⟨t.reverse, by rw [← List.reverse_append, ht, List.reverse_reverse]⟩

theorem stripDotSpace_within (cs : List Char) : stripDotSpaceList cs <:+: cs := by
  obtain ⟨s1, hs1⟩ : cs.dropWhile isDotSpace <:+ cs := List.dropWhile_suffix _
  obtain ⟨t2, ht2⟩ : stripDotSpaceList cs <+: cs.dropWhile isDotSpace :=
    rev_dropWhile_rev_front _ _
  exact ⟨s1, t2, by rw [List.append_assoc, ht2, hs1]⟩

theorem stripDotSpace_head (cs : List Char) :
    ∀ c, (stripDotSpaceList cs).head? = some c → isDotSpace c = false := by
  intro c hc
  have h2 : stripDotSpaceList cs <+: cs.dropWhile isDotSpace :=
    rev_dropWhile_rev_front _ _
  obtain ⟨t, ht⟩ := h2
  have : (cs.dropWhile isDotSpace).head? = some c := by
    rw [← ht]
    cases hs : stripDotSpaceList cs with
    | nil => rw [hs] at hc; simp at hc
    | cons x xs =>
      rw [hs] at hc
      simp only [List.head?_cons, Option.some.injEq] at hc
      simp [hc]
  exact head_dropWhile_not _ _ c this

theorem stripDotSpace_getLast (cs : List Char) :
    ∀ c, (stripDotSpaceList cs).getLast? = some c → isDotSpace c = false := by
  intro c hc
  rw [stripDotSpaceList, List.getLast?_reverse] at hc
  exact head_dropWhile_not _ _ c hc

theorem sanitize_no_invalid (cs : List Char) :
    ∀ c ∈ sanitizeFilenameList cs, invalidFileChar c = false := by
  intro c hc
  rw [sanitizeFilenameList] at hc
  have hmem : c ∈ stripDotSpaceList
      (collapseWsAux false (cs.filter (fun c => !invalidFileChar c))) := by
    by_cases hlen : (stripDotSpaceList
        (collapseWsAux false (cs.filter (fun c => !invalidFileChar c)))).length > 200
    · rw [if_pos hlen] at hc
      exact (List.take_prefix _ _).subset hc
    · rwa [if_neg hlen] at hc
  have hmem2 := (stripDotSpace_within _).subset hmem
  rcases collapseWs_mem _ false c hmem2 with h | h
  · rw [h]; rfl
  · have := List.of_mem_filter h
    simpa using this

theorem sanitize_ws_eq_space (cs : List Char) :
    ∀ c ∈ sanitizeFilenameList cs, pyIsSpace c = true → c = ' ' := by
  intro c hc hws
  rw [sanitizeFilenameList] at hc
  have hmem : c ∈ stripDotSpaceList
      (collapseWsAux false (cs.filter (fun c => !invalidFileChar c))) := by
    by_cases hlen : (stripDotSpaceList
        (collapseWsAux false (cs.filter (fun c => !invalidFileChar c)))).length > 200
    · rw [if_pos hlen] at hc
      exact (List.take_prefix _ _).subset hc
    · rwa [if_neg hlen] at hc
  have hmem2 := (stripDotSpace_within _).subset hmem
  exact collapseWs_ws_eq_space _ false c hmem2 hws

theorem sanitize_chain (cs : List Char) :
    List.Chain' (fun x y => ¬(x = ' ' ∧ y = ' ')) (sanitizeFilenameList cs) := by
  rw [sanitizeFilenameList]
  have hch : List.Chain' (fun x y => ¬(x = ' ' ∧ y = ' '))
      (stripDotSpaceList
        (collapseWsAux false (cs.filter (fun c => !invalidFileChar c)))) :=
    List.Chain'.infix (collapseWs_chain _ false) (stripDotSpace_within _)
  by_cases hlen : (stripDotSpaceList
      (collapseWsAux false (cs.filter (fun c => !invalidFileChar c)))).length > 200
  · rw [if_pos hlen]
    exact hch.prefix (List.take_prefix _ _)
  · rwa [if_neg hlen]

theorem head_take {α} (n : Nat) (l : List α) (h : 0 < n) :
    (l.take n).head? = l.head? := by
  cases l with
  | nil => simp
  | cons a l =>
    cases n with
    | zero => exact absurd h (by simp)
    | succ n => simp

theorem sanitize_head (cs : List Char) :
    ∀ c, (sanitizeFilenameList cs).head? = some c → isDotSpace c = false := by
  intro c hc
  rw [sanitizeFilenameList] at hc
  by_cases hlen : (stripDotSpaceList
      (collapseWsAux false (cs.filter (fun c => !invalidFileChar c)))).length > 200
  · rw [if_pos hlen, head_take _ _ (by omega)] at hc
    exact stripDotSpace_head _ c hc
  · rw [if_neg hlen] at hc
    exact stripDotSpace_head _ c hc

theorem sanitize_length_le (cs : List Char) :
    (sanitizeFilenameList cs).length ≤ 200 := by
  rw [sanitizeFilenameList]
  by_cases hlen : (stripDotSpaceList
      (collapseWsAux false (cs.filter (fun c => !invalidFileChar c)))).length > 200
  · rw [if_pos hlen]
    simp
  · rw [if_neg hlen]
    omega

theorem sanitize_trail_of_short (cs : List Char)
    (h : (sanitizeFilenameList cs).length < 200) :
    ∀ c, (sanitizeFilenameList cs).getLast? = some c → isDotSpace c = false := by
  intro c hc
  rw [sanitizeFilenameList] at hc h
  by_cases hlen : (stripDotSpaceList
      (collapseWsAux false (cs.filter (fun c => !invalidFileChar c)))).length > 200
  · rw [if_pos hlen] at h
    rw [List.length_take] at h
    omega
  · rw [if_neg hlen] at hc
    exact stripDotSpace_getLast _ c hc

theorem collapse_state_eq (l : List Char)
    (h : ∀ c, l.head? = some c → pyIsSpace c = false) :
    collapseWsAux true l = collapseWsAux false l := by
  cases l with
  | nil => rfl
  | cons a l =>
    have ha := h a rfl
    rw [collapseWsAux, collapseWsAux, if_neg (by simp [ha]), if_neg (by simp [ha])]

theorem collapse_id (l : List Char)
    (hws : ∀ c ∈ l, pyIsSpace c = true → c = ' ')
    (hch : List.Chain' (fun x y => ¬(x = ' ' ∧ y = ' ')) l) :
    collapseWsAux false l = l := by
  induction l with
  | nil => rfl
  | cons a l ih =>
    rw [collapseWsAux]
    by_cases ha : pyIsSpace a = true
    · have ha' : a = ' ' := hws a (List.mem_cons_self a l) ha
      rw [if_pos ha, if_neg (by simp)]
      have hhead : ∀ c, l.head? = some c → pyIsSpace c = false := by
        intro c hcl
        rcases List.chain'_cons'.mp hch with ⟨hrel, _⟩
        have hne : ¬(a = ' ' ∧ c = ' ') := hrel c (by rw [hcl]; rfl)
        by_cases hcs : pyIsSpace c = true
        · have hmem : c ∈ l := List.mem_of_mem_head? (by rw [hcl]; rfl)
          have : c = ' ' := hws c (List.mem_cons_of_mem a hmem) hcs
          exact absurd ⟨ha', this⟩ hne
        · simpa using hcs
      rw [collapse_state_eq l hhead]
      rw [ih (fun c hc => hws c (List.mem_cons_of_mem a hc))
        (List.chain'_cons'.mp hch).2]
      rw [ha']
    · rw [if_neg ha]
      rw [ih (fun c hc => hws c (List.mem_cons_of_mem a hc))
        (List.chain'_cons'.mp hch).2]

theorem dropWhile_eq_self_of_head {α} (p : α → Bool) (l : List α)
    (h : ∀ c, l.head? = some c → p c = false) : l.dropWhile p = l := by
  cases l with
  | nil => rfl
  | cons a l => rw [List.dropWhile_cons, if_neg (by simp [h a rfl])]

theorem stripDotSpace_id (cs : List Char)
    (hhead : ∀ c, cs.head? = some c → isDotSpace c = false)
    (hlast : ∀ c, cs.getLast? = some c → isDotSpace c = false) :
    stripDotSpaceList cs = cs := by
  rw [stripDotSpaceList, dropWhile_eq_self_of_head _ _ hhead,
    dropWhile_eq_self_of_head _ _
      (fun c hc => hlast c (by rwa [List.head?_reverse] at hc)),
    List.reverse_reverse]

theorem sanitize_idem_list (cs : List Char)
    (h : ∀ c, (sanitizeFilenameList cs).getLast? = some c → isDotSpace c = false) :
    sanitizeFilenameList (sanitizeFilenameList cs) = sanitizeFilenameList cs := by
  set r := sanitizeFilenameList cs with hr
  have h1 : r.filter (fun c => !invalidFileChar c) = r :=
    List.filter_eq_self.mpr (fun a ha => by simp [sanitize_no_invalid cs a ha])
  have h2 : collapseWsAux false r = r :=
    collapse_id r (sanitize_ws_eq_space cs) (sanitize_chain cs)
  have h3 : stripDotSpaceList r = r :=
    stripDotSpace_id r (sanitize_head cs) h
  have h4 : ¬(r.length > 200) := by
    have := sanitize_length_le cs
    rw [← hr] at this
    omega
  simp only [sanitizeFilenameList, h1, h2, h3]
  rw [if_neg h4]

/-- C7: for every input title, `_sanitize_filename` returns a string
with none of the reserved characters, whose whitespace is only single
spaces with no two adjacent, with no leading dot or space, of length at
most 200, and — when the result is shorter than the 200-character cap,
i.e. no truncation cut it — with no trailing dot or space.  (The
original claim also demanded non-emptiness, which is false.) -/
theorem C7_sanitize_filename_safe (s : String) :
    (∀ c ∈ (sanitizeFilename s).toList, invalidFileChar c = false) ∧
    (∀ c ∈ (sanitizeFilename s).toList, pyIsSpace c = true → c = ' ') ∧
    List.Chain' (fun x y => ¬(x = ' ' ∧ y = ' ')) (sanitizeFilename s).toList ∧
    (∀ c, (sanitizeFilename s).toList.head? = some c → isDotSpace c = false) ∧
    (sanitizeFilename s).length ≤ 200 ∧
    ((sanitizeFilename s).length < 200 →
      ∀ c, (sanitizeFilename s).toList.getLast? = some c → isDotSpace c = false) :=
  ⟨sanitize_no_invalid s.toList, sanitize_ws_eq_space s.toList,
   sanitize_chain s.toList, sanitize_head s.toList, sanitize_length_le s.toList,
   sanitize_trail_of_short s.toList⟩

theorem C7_sanitize_filename_safe_witness :
    (sanitizeFilename "a  <b>?.").length ≤ 200 :=
  (C7_sanitize_filename_safe "a  <b>?.").2.2.2.2.1

/-- A title that is 199 `a`s, a space, and a `b`: sanitization truncates
it to 200 characters, leaving a trailing space. -/
def exTitleC10 : String := String.mk (List.replicate 199 'a' ++ [' ', 'b'])

theorem collapse_replicate (c : Char) (hc : pyIsSpace c = false) (n : Nat) :
    ∀ (b : Bool) (l : List Char),
      collapseWsAux b (List.replicate (n + 1) c ++ l) =
        List.replicate (n + 1) c ++ collapseWsAux false l := by
  induction n with
  | zero =>
    intro b l
    rw [List.replicate_succ, List.replicate_zero, List.cons_append,
      List.nil_append, collapseWsAux, if_neg (by simp [hc]),
      List.cons_append, List.nil_append]
  | succ n ih =>
    intro b l
    have h1 : List.replicate (n + 1 + 1) c = c :: List.replicate (n + 1) c :=
      List.replicate_succ c (n + 1)
    rw [h1, List.cons_append, List.cons_append, collapseWsAux,
      if_neg (by simp [hc]), ih false l]

theorem replicate_succ_head (c : Char) (n : Nat) :
    (List.replicate (n + 1) c).head? = some c := by
  rw [List.replicate_succ, List.head?_cons]

/-- Evaluating the sanitizer on the 201-character title: the pipeline
changes nothing until the final truncation, which cuts the trailing `b`
and leaves a trailing space. -/
theorem sanitize_eval_long :
    sanitizeFilenameList (List.replicate 199 'a' ++ [' ', 'b']) =
      List.replicate 199 'a' ++ [' '] := by
  have hfil : (List.replicate 199 'a' ++ [' ', 'b']).filter
      (fun c => !invalidFileChar c) = List.replicate 199 'a' ++ [' ', 'b'] := by
    apply List.filter_eq_self.mpr
    intro a ha
    rcases List.mem_append.mp ha with h | h
    · rw [List.eq_of_mem_replicate h]; decide
    · rcases List.mem_cons.mp h with h | h
      · rw [h]; decide
      · rcases List.mem_cons.mp h with h | h
        · rw [h]; decide
        · simp at h
  have hcol : collapseWsAux false (List.replicate 199 'a' ++ [' ', 'b']) =
      List.replicate 199 'a' ++ [' ', 'b'] := by
    rw [show (199 : Nat) = 198 + 1 from rfl,
      collapse_replicate 'a' (by decide) 198 false [' ', 'b']]
    rfl
  have hhead : (List.replicate 199 'a' ++ [' ', 'b']).head? = some 'a' := by
    rw [show (199 : Nat) = 198 + 1 from rfl, List.replicate_succ,
      List.cons_append, List.head?_cons]
  have hlast : (List.replicate 199 'a' ++ [' ', 'b']).getLast? = some 'b' := by
    rw [← List.head?_reverse, List.reverse_append]
    rfl
  have hstrip : stripDotSpaceList (List.replicate 199 'a' ++ [' ', 'b']) =
      List.replicate 199 'a' ++ [' ', 'b'] := by
    apply stripDotSpace_id
    · intro c hcd
      rw [hhead, Option.some.injEq] at hcd
      rw [← hcd]
      decide
    · intro c hcd
      rw [hlast, Option.some.injEq] at hcd
      rw [← hcd]
      decide
  have hlen : (List.replicate 199 'a' ++ [' ', 'b']).length = 201 := by
    rw [List.length_append, List.length_replicate]
    rfl
  have htake : (List.replicate 199 'a' ++ [' ', 'b']).take 200 =
      List.replicate 199 'a' ++ [' '] := by
    have h199 : (200 : Nat) = (List.replicate 199 'a').length + 1 := by
      rw [List.length_replicate]
    rw [h199, List.take_append]
    rfl
  simp only [sanitizeFilenameList, hfil, hcol, hstrip]
  rw [if_pos (by rw [hlen]; omega), htake]

/-- Evaluating the sanitizer on its own truncated output: the pipeline
changes nothing until the strip step, which removes the trailing
space. -/
theorem sanitize_eval_long2 :
    sanitizeFilenameList (List.replicate 199 'a' ++ [' ']) =
      List.replicate 199 'a' := by
  have hfil : (List.replicate 199 'a' ++ [' ']).filter
      (fun c => !invalidFileChar c) = List.replicate 199 'a' ++ [' '] := by
    apply List.filter_eq_self.mpr
    intro a ha
    rcases List.mem_append.mp ha with h | h
    · rw [List.eq_of_mem_replicate h]; decide
    · rcases List.mem_cons.mp h with h | h
      · rw [h]; decide
      · simp at h
  have hcol : collapseWsAux false (List.replicate 199 'a' ++ [' ']) =
      List.replicate 199 'a' ++ [' '] := by
    rw [show (199 : Nat) = 198 + 1 from rfl,
      collapse_replicate 'a' (by decide) 198 false [' ']]
    rfl
  have hhead1 : ∀ c, (List.replicate 199 'a' ++ [' ']).head? = some c →
      isDotSpace c = false := by
    intro c hcd
    rw [show (199 : Nat) = 198 + 1 from rfl, List.replicate_succ,
      List.cons_append, List.head?_cons, Option.some.injEq] at hcd
    rw [← hcd]
    decide
  have hhead2 : ∀ c, (List.replicate 199 'a').head? = some c →
      isDotSpace c = false := by
    intro c hcd
    rw [show (199 : Nat) = 198 + 1 from rfl, replicate_succ_head,
      Option.some.injEq] at hcd
    rw [← hcd]
    decide
  have hrev : (List.replicate 199 'a' ++ [' ']).reverse =
      ' ' :: List.replicate 199 'a' := by
    rw [List.reverse_append, List.reverse_replicate]
    rfl
  have hstrip : stripDotSpaceList (List.replicate 199 'a' ++ [' ']) =
      List.replicate 199 'a' := by
    rw [stripDotSpaceList,
      dropWhile_eq_self_of_head isDotSpace (List.replicate 199 'a' ++ [' ']) hhead1,
      hrev, List.dropWhile_cons, if_pos (by decide),
      dropWhile_eq_self_of_head isDotSpace (List.replicate 199 'a') hhead2,
      List.reverse_replicate]
  simp only [sanitizeFilenameList, hfil, hcol, hstrip]
  rw [if_neg (by rw [List.length_replicate]; omega)]

/-- C7 counterexample: the sanitizer maps a title consisting of a single
reserved character to the empty string, refuting the claimed
non-emptiness; and truncation at 200 characters can leave a trailing
space, refuting the claimed absence of trailing spaces. -/
theorem C7_counterexample :
    sanitizeFilename "?" = "" ∧
    sanitizeFilename exTitleC10 = String.mk (List.replicate 199 'a' ++ [' ']) := by
  constructor
  · decide
  · show String.mk (sanitizeFilenameList exTitleC10.toList) = _
    rw [show exTitleC10.toList = List.replicate 199 'a' ++ [' ', 'b'] from rfl,
      sanitize_eval_long]

/-- C10 counterexample: sanitization is not idempotent — truncation can
leave a trailing space that a second application strips. -/
theorem C10_counterexample :
    sanitizeFilename (sanitizeFilename exTitleC10) ≠ sanitizeFilename exTitleC10 := by
  have h1 : sanitizeFilename exTitleC10 =
      String.mk (List.replicate 199 'a' ++ [' ']) := by
    show String.mk (sanitizeFilenameList exTitleC10.toList) = _
    rw [show exTitleC10.toList = List.replicate 199 'a' ++ [' ', 'b'] from rfl,
      sanitize_eval_long]
  rw [h1]
  show String.mk (sanitizeFilenameList (List.replicate 199 'a' ++ [' '])) ≠ _
  rw [sanitize_eval_long2]
  intro h
  have hl := congrArg (fun s => s.toList.length) h
  simp only [toList_mk, List.length_append, List.length_replicate,
    List.length_cons, List.length_nil] at hl
  omega

/-- C10 amended: sanitization is idempotent on every input whose
sanitized form does not end in a dot or space — in particular whenever
the 200-character truncation did not cut the string. -/
theorem C10_sanitize_idempotent_amended (s : String)
    (h : noTrailDotSpace (sanitizeFilename s).toList = true) :
    sanitizeFilename (sanitizeFilename s) = sanitizeFilename s := by
  have h' := (noTrailDotSpace_spec _).mp h
  simp only [sanitizeFilename, toList_mk] at h' ⊢
  exact congrArg String.mk (sanitize_idem_list s.toList h')

theorem C10_sanitize_idempotent_amended_witness :
    sanitizeFilename (sanitizeFilename "a b") = sanitizeFilename "a b" :=
  C10_sanitize_idempotent_amended "a b" (by decide)

/-- Left-to-right scan of `re.sub` with pattern bracket-digits-bracket
from `_post_process_markdown`.  The state is `none` outside a candidate
match, or `some pend` after an opening bracket with the digits read so
far (in reverse).  On a successful match the replacement template is
emitted: because the template source escapes its backslash, the emitted
text is the literal five characters bracket-caret-backslash-one-bracket,
not a reference to the captured digits. -/
def footSubAux : Option (List Char) → List Char → List Char
  | none, [] => []
  | some pend, [] => '[' :: pend.reverse
  | none, c :: cs =>
    if c = '[' then footSubAux (some []) cs
    else c :: footSubAux none cs
  | some pend, c :: cs =>
    if c.isDigit then footSubAux (some (c :: pend)) cs
    else if c = ']' && !pend.isEmpty then
      '[' :: '^' :: '\\' :: '1' :: ']' :: footSubAux none cs
    else if c = '[' then
      '[' :: pend.reverse ++ footSubAux (some []) cs
    else
      '[' :: pend.reverse ++ (c :: footSubAux none cs)

/-- The footnote-marker substitution step of
`MarkdownConverter._post_process_markdown`. -/
def postFootnoteSub (s : String) : String :=
  String.mk (footSubAux none s.toList)

/-- C8: evaluating the footnote substitution at a failing input.  The
replacement template escapes its backslash, so the digit run of the
marker is not carried over: every marker becomes the literal text
bracket-caret-backslash-one-bracket, losing the digits, whereas the
code's own comment and the claim call for a caret footnote keeping the
digits. -/
theorem C8_footnote_marker_bug :
    postFootnoteSub "See note [12]." = "See note [^\\1]." ∧
    postFootnoteSub "See note [12]." ≠ "See note [^12]." := by
  constructor
  · decide
  · decide

/-- Python string formatting of a natural number with the 02d format
specification. -/
def pad2 (n : Nat) : String :=
  if n < 10 then "0" ++ toString n else toString n

/-- `ObsidianWriter._create_chapter_filename`. -/
def createChapterFilename (c : Chapter) : String :=
  pad2 c.number ++ " - " ++ sanitizeFilename c.title ++ ".md"

/-- Python slicing `s[:-3]`. -/
def dropLast3 (s : String) : String :=
  String.mk (s.toList.take (s.toList.length - 3))

/-- The book title `_fix_navigation` reads off the chapter list: the
`book_metadata` key of the first chapter when present (it never is in
records built by `_process_chapter`), with placeholder "Book". -/
def navBookTitle (chapters : List Chapter) : String :=
  match chapters with
  | [] => "Book"
  | c :: _ =>
    match c.book_metadata with
    | none => "Book"
    | some m => m.title.getD "Book"

/-- `create_navigation` inside `ObsidianWriter._fix_navigation`: a
previous-chapter link when the index is positive, the index link, and a
next-chapter link when another chapter follows.  Out-of-range chapter
indexing (impossible in `write_book`, which passes adjacent indices)
falls back to the default record. -/
def fixNavLine (chapters : List Chapter) (total : Nat) (idx : Nat) : String :=
  let bookTitle := navBookTitle chapters
  let prevParts : List String :=
    if 0 < idx then
      let prev := chapters.getD (idx - 1) default
      ["â¬…ï¸ [[" ++ dropLast3 (createChapterFilename prev) ++
        "|Previous: " ++ prev.title ++ "]]"]
    else []
  let indexPart := "ğŸ“š [[" ++ bookTitle ++ " - Index|Index]]"
  let nextParts : List String :=
    if idx < total - 1 then
      let next := chapters.getD (idx + 1) default
      ["[[" ++ dropLast3 (createChapterFilename next) ++ "|Next: " ++ next.title ++
        "]] â¡ï¸"]
    else []
  String.intercalate " | " (prevParts ++ [indexPart] ++ nextParts)

/-- Python `content.split(newline)`. -/
def splitLinesAux : List Char → List Char → List String
  | acc, [] => [String.mk acc.reverse]
  | acc, c :: cs =>
    if c = '\n' then String.mk acc.reverse :: splitLinesAux [] cs
    else splitLinesAux (c :: acc) cs

/-- Python `content.split(newline)`. -/
def splitLines (s : String) : List String := splitLinesAux [] s.toList

/-- Python `newline.join(lines)`. -/
def joinLines : List String → String
  | [] => ""
  | [l] => l
  | l :: ls => l ++ "\n" ++ joinLines ls

/-- Index of the last line whose stripped text is the separator, as
found by the backwards loop of `_fix_navigation`. -/
def lastSepIdx (lines : List String) : Option Nat :=
  ((lines.enum.filter (fun p => pyStrip p.2 = "---")).getLast?).map Prod.fst

/-- `ObsidianWriter._fix_navigation`: locate the last separator line,
discard everything after it, and append a blank line plus the freshly
computed navigation line; without a separator the content is returned
unchanged. -/
def fixNavigation (content : String) (chapterIdx total : Nat)
    (chapters : List Chapter) : String :=
  let newNav := fixNavLine chapters total chapterIdx
  let lines := splitLines content
  match lastSepIdx lines with
  | none => content
  | some i => joinLines (lines.take (i + 1) ++ ["", newNav])

theorem chapterOf_book_metadata (it : Item) (n : Nat) :
    (chapterOf it n).book_metadata = none := rfl

theorem chaptersSpec_book_metadata (items : List Item) :
    ∀ n, ∀ c ∈ chaptersSpec items n, c.book_metadata = none := by
  induction items with
  | nil => intro n c hc; simp [chaptersSpec] at hc
  | cons it rest ih =>
    intro n c hc
    simp only [chaptersSpec, List.mem_cons] at hc
    rcases hc with rfl | hc
    · rfl
    · exact ih (n + 1) c hc

/-- Chapters built by `get_chapters` never carry the `book_metadata`
key, so `_fix_navigation` always falls back to the placeholder title. -/
theorem getChapters_navBookTitle (spine : List (Option Item)) :
    navBookTitle (getChapters spine) = "Book" := by
  rw [getChapters_eq_chaptersSpec]
  cases hk : chaptersSpec (keptItems spine) 0 with
  | nil => rfl
  | cons c rest =>
    have hm : c.book_metadata = none :=
      chaptersSpec_book_metadata (keptItems spine) 0 c (by rw [hk]; simp)
    rw [navBookTitle, hm]

/-- The three-chapter book of the C6 scenario, with its real metadata
title "My Book"; the chapter records are exactly what
`_process_chapter` builds (no `book_metadata` key). -/
def exChaptersC6 : List Chapter :=
  [{ number := 1, title := "One", content_html := [], content := "One",
     item_id := "c1", file_name := "c1.html", book_metadata := none },
   { number := 2, title := "Two", content_html := [], content := "Two",
     item_id := "c2", file_name := "c2.html", book_metadata := none },
   { number := 3, title := "Three", content_html := [], content := "Three",
     item_id := "c3", file_name := "c3.html", book_metadata := none }]

/-- An assembled chapter document as `convert_chapter` lays it out:
header block, body, separator, placeholder navigation. -/
def exContentC6 : String := "---\ntitle: x\n---\n\nBody\n\n---\n\nOLD"

/-- The navigation line the code writes for the middle chapter. -/
def exNavC6mid : String :=
  "â¬…ï¸ [[01 - One|Previous: One]] | " ++
  "ğŸ“š [[Book - Index|Index]] | " ++
  "[[03 - Three|Next: Three]] â¡ï¸"

/-- The navigation line the code writes for the first chapter. -/
def exNavC6first : String :=
  "ğŸ“š [[Book - Index|Index]] | " ++
  "[[02 - Two|Next: Two]] â¡ï¸"

/-- The navigation line the code writes for the last chapter. -/
def exNavC6last : String :=
  "â¬…ï¸ [[02 - Two|Previous: Two]] | " ++
  "ğŸ“š [[Book - Index|Index]]"

/-- C6: evaluating the navigation rewrite on a three-chapter book titled
"My Book".  The rewrite does locate the last separator, truncate, and
append the adjacency-correct previous/next links exactly once — but the
index link names "Book - Index", not the book's actual index
"My Book - Index", because the book title is read from a
`book_metadata` key that the pipeline never populates. -/
theorem C6_navigation_index_bug :
    navBookTitle exChaptersC6 = "Book" ∧
    navBookTitle exChaptersC6 ≠ "My Book" ∧
    fixNavigation exContentC6 1 3 exChaptersC6 =
      "---\ntitle: x\n---\n\nBody\n\n---\n\n" ++ exNavC6mid ∧
    fixNavigation exContentC6 0 3 exChaptersC6 =
      "---\ntitle: x\n---\n\nBody\n\n---\n\n" ++ exNavC6first ∧
    fixNavigation exContentC6 2 3 exChaptersC6 =
      "---\ntitle: x\n---\n\nBody\n\n---\n\n" ++ exNavC6last := by
  refine ⟨rfl, by decide, ?_, ?_, ?_⟩
  · decide
  · decide
  · decide

/-- The book-level metadata record extracted by `_extract_metadata`
(only the always-present title field is modelled). -/
structure BookMeta where
  title : String
deriving Repr, DecidableEq, Inhabited

/-- The file names `ObsidianWriter.write_book` writes, in order: the
index page, the info page, then one file per chapter from
`_create_chapter_filename`. -/
def writeBookFileNames (meta : BookMeta) (spine : List (Option Item)) :
    List String :=
  (meta.title ++ " - Index.md") :: (meta.title ++ " - Info.md") ::
    (getChapters spine).map createChapterFilename

/-- C9 counterexample: for a book titled with a reserved character, the
index and info files are named with the raw title, not the sanitized
title the claim requires. -/
theorem C9_counterexample :
    writeBookFileNames ⟨"My: Book"⟩ [] =
      ["My: Book - Index.md", "My: Book - Info.md"] ∧
    sanitizeFilename "My: Book" ++ " - Index.md" = "My Book - Index.md" ∧
    ("My: Book - Index.md" : String) ≠ "My Book - Index.md" := by
  refine ⟨rfl, by decide, by decide⟩

theorem chaptersSpec_get?_number (items : List Item) :
    ∀ n k c, (chaptersSpec items n).get? k = some c → c.number = n + k + 1 := by
  induction items with
  | nil => intro n k c hc; simp [chaptersSpec] at hc
  | cons it rest ih =>
    intro n k c hc
    cases k with
    | zero =>
      simp only [chaptersSpec, List.get?_cons_zero, Option.some.injEq] at hc
      rw [← hc, chapterOf_number]
    | succ k =>
      simp only [chaptersSpec, List.get?_cons_succ] at hc
      have := ih (n + 1) k c hc
      omega

/-- C9 amended: chapter files are named with the two-digit zero-padded
ordinal and the sanitized chapter title — the chapter at position k of
the filtered list is numbered k+1 — while the index and info files are
named from the raw, unsanitized book title. -/
theorem C9_file_naming_amended (meta : BookMeta) (spine : List (Option Item)) :
    (writeBookFileNames meta spine).take 2 =
      [meta.title ++ " - Index.md", meta.title ++ " - Info.md"] ∧
    (∀ k c, (getChapters spine).get? k = some c →
      (writeBookFileNames meta spine).getD (k + 2) "" =
        pad2 (k + 1) ++ " - " ++ sanitizeFilename c.title ++ ".md") := by
  constructor
  · rfl
  · intro k c hc
    have hnum : c.number = k + 1 := by
      rw [getChapters_eq_chaptersSpec] at hc
      have := chaptersSpec_get?_number (keptItems spine) 0 k c hc
      omega
    have hmap : ((getChapters spine).map createChapterFilename).get? k =
        some (createChapterFilename c) := by
      rw [List.get?_eq_getElem?, List.getElem?_map, ← List.get?_eq_getElem?, hc]
      rfl
    have hgd : (writeBookFileNames meta spine).getD (k + 2) "" =
        ((getChapters spine).map createChapterFilename).getD k "" := by
      rw [writeBookFileNames]
      rfl
    rw [hgd, List.getD_eq_getElem?_getD, ← List.get?_eq_getElem?, hmap]
    show createChapterFilename c = _
    rw [createChapterFilename, hnum]

/-- A chapter for the C9 witness. -/
def exSpineC9 : List (Option Item) := []

theorem C9_file_naming_amended_witness :
    (writeBookFileNames ⟨"T"⟩ exSpineC9).take 2 =
      ["T - Index.md", "T - Info.md"] :=
  (C9_file_naming_amended ⟨"T"⟩ exSpineC9).1

end EpubObsidian
